import Mathlib

/-!
# Verification of the bazachat 2D geometry / seat-layout engine

Shallow embedding of the geometry core of the venue-seating designer:
polygon area / centroid / self-intersection (exact rational arithmetic,
mirroring the TypeScript number operations symbolically), the arc model
(3-point circle fitting and parametric sampling, over the reals since the
source uses `atan2`, `cos`, `sin`), the snap resolver, the zone auto
capacity preview and the section grid estimate.

Conventions:
* TypeScript `number` arithmetic is embedded as exact arithmetic (`ℚ` where
  the source only uses field operations and comparisons, `ℝ` where it uses
  square roots and trigonometry).
* JS `((x % p) + p) % p` and `x % p` idioms are embedded by `jsfmod`
  (remainder with the sign of the dividend, i.e. truncated division, which
  is the JS `%`).
* JS `Math.round` (round half toward +∞) is embedded as `jsround`.
* Fallible operations returning `null` are embedded with `Option`.
-/

namespace Bazachat

/-! ## Polygon operations (source: `polygonArea`, `polygonCentroid`,
`polygonSelfIntersection` with helpers `orient`, `onSegment`,
`segmentIntersectionPoint`) -/

/-- Vertex access `points[(i + n) % n]` used by the source loops (the source
indexes with `i` and `(i + 1) % n`, and `polygonSelfIntersection` uses
`get = (i) => points[(i + n) % n]`; for `i < n` both are plain indexing). -/
def pt (points : List (ℚ × ℚ)) (i : ℕ) : ℚ × ℚ :=
  points.getD (i % points.length) (0, 0)

/-- `polygonArea`: shoelace loop, `area2 += x0*y1 - x1*y0` over
`i, (i+1) % n`, returning `|area2| / 2`; `0` for fewer than 3 points. -/
def polygonArea (points : List (ℚ × ℚ)) : ℚ :=
  if points.length < 3 then 0
  else
    |∑ i ∈ Finset.range points.length,
        ((pt points i).1 * (pt points (i + 1)).2 -
          (pt points (i + 1)).1 * (pt points i).2)| / 2

/-- JS `Math.round`: round half toward `+∞`. -/
def jsround (q : ℚ) : ℤ := ⌊q + 1 / 2⌋

/-- `polygonCentroid`: accumulates `area2`, `cx`, `cy` over consecutive
vertex pairs; `null` for fewer than 3 points or `|area2| < 1e-12`,
otherwise `(cx, cy)` scaled by `factor = 1 / (3 * area2)`. -/
def polygonCentroid (points : List (ℚ × ℚ)) : Option (ℚ × ℚ) :=
  if points.length < 3 then none
  else
    let area2 := ∑ i ∈ Finset.range points.length,
        ((pt points i).1 * (pt points (i + 1)).2 -
          (pt points (i + 1)).1 * (pt points i).2)
    let cx := ∑ i ∈ Finset.range points.length,
        (((pt points i).1 + (pt points (i + 1)).1) *
          ((pt points i).1 * (pt points (i + 1)).2 -
            (pt points (i + 1)).1 * (pt points i).2))
    let cy := ∑ i ∈ Finset.range points.length,
        (((pt points i).2 + (pt points (i + 1)).2) *
          ((pt points i).1 * (pt points (i + 1)).2 -
            (pt points (i + 1)).1 * (pt points i).2))
    if |area2| < 1e-12 then none
    else
      let factor := 1 / (3 * area2)
      some (cx * factor, cy * factor)

/-- `orient(ax, ay, bx, by, cx, cy)`: `cross((b-a), (c-a))`. -/
def orient (ax ay bx by' cx cy : ℚ) : ℚ :=
  (bx - ax) * (cy - ay) - (by' - ay) * (cx - ax)

/-- `onSegment(ax, ay, bx, by, px, py)` with the default `eps = 1e-9`:
bounding-box membership with epsilon slack. -/
def onSegment (ax ay bx by' px py : ℚ) : Prop :=
  min ax bx - 1e-9 ≤ px ∧ px ≤ max ax bx + 1e-9 ∧
    min ay by' - 1e-9 ≤ py ∧ py ≤ max ay by' + 1e-9

instance (ax ay bx by' px py : ℚ) : Decidable (onSegment ax ay bx by' px py) := by
  unfold onSegment; infer_instance

/-- `segmentIntersectionPoint` with the default `eps = 1e-9`: proper
(non-parallel) intersection point of segments `a-b` and `c-d`, `null` when
near-parallel or the parameters fall outside `[-eps, 1+eps]`. -/
def segmentIntersectionPoint (ax ay bx by' cx cy dx dy : ℚ) : Option (ℚ × ℚ) :=
  let rpx := bx - ax
  let rpy := by' - ay
  let spx := dx - cx
  let spy := dy - cy
  let denom := rpx * spy - rpy * spx
  if |denom| < 1e-9 then none
  else
    let qpx := cx - ax
    let qpy := cy - ay
    let t := (qpx * spy - qpy * spx) / denom
    let u := (qpx * rpy - qpy * rpx) / denom
    if t < -1e-9 ∨ t > 1 + 1e-9 ∨ u < -1e-9 ∨ u > 1 + 1e-9 then none
    else some (ax + t * rpx, ay + t * rpy)

/-- Body of the `polygonSelfIntersection` inner loop for one edge pair
`(a→b, c→d)`: orientation tests with `eps = 1e-9` for a proper crossing,
the `else if` cascade for epsilon-touching (a cascade of `intersects = true`
assignments is logically the disjunction of its guards), and on a hit the
computed intersection point with fallback `[cx, cy]`. -/
def edgeCheck (a b c d : ℚ × ℚ) : Option (ℚ × ℚ) :=
  let o1 := orient a.1 a.2 b.1 b.2 c.1 c.2
  let o2 := orient a.1 a.2 b.1 b.2 d.1 d.2
  let o3 := orient c.1 c.2 d.1 d.2 a.1 a.2
  let o4 := orient c.1 c.2 d.1 d.2 b.1 b.2
  if (((o1 > 1e-9 ∧ o2 < -1e-9) ∨ (o1 < -1e-9 ∧ o2 > 1e-9)) ∧
        ((o3 > 1e-9 ∧ o4 < -1e-9) ∨ (o3 < -1e-9 ∧ o4 > 1e-9))) ∨
      (|o1| ≤ 1e-9 ∧ onSegment a.1 a.2 b.1 b.2 c.1 c.2) ∨
      (|o2| ≤ 1e-9 ∧ onSegment a.1 a.2 b.1 b.2 d.1 d.2) ∨
      (|o3| ≤ 1e-9 ∧ onSegment c.1 c.2 d.1 d.2 a.1 a.2) ∨
      (|o4| ≤ 1e-9 ∧ onSegment c.1 c.2 d.1 d.2 b.1 b.2) then
    some ((segmentIntersectionPoint a.1 a.2 b.1 b.2 c.1 c.2 d.1 d.2).getD (c.1, c.2))
  else none

/-- Index pairs `(i, j)` visited by the `polygonSelfIntersection` double
loop: `j > i`, skipping adjacent edges (`|i - j| <= 1`) and the wrap-around
adjacency (`i = 0 ∧ j = n - 1`). -/
def nonAdjPairs (n : ℕ) : List (ℕ × ℕ) :=
  (List.range n).flatMap fun i =>
    ((List.range n).filter fun j =>
        decide (i + 2 ≤ j) && !(decide (i = 0) && decide (j = n - 1))).map
      fun j => (i, j)

/-- `polygonSelfIntersection`: first epsilon-tolerant crossing over
non-adjacent edge pairs, `null` for fewer than 4 points or no crossing. -/
def polygonSelfIntersection (points : List (ℚ × ℚ)) : Option (ℚ × ℚ) :=
  if points.length < 4 then none
  else
    (nonAdjPairs points.length).findSome? fun ij =>
      edgeCheck (pt points ij.1) (pt points (ij.1 + 1))
        (pt points ij.2) (pt points (ij.2 + 1))

/-! ## Zone capacity and grid estimate (source: `zoneAutoPreview`,
`sectionGridEstimate` in `App.tsx`) -/

/-- `zoneAutoPreview`: polygon area together with
`Math.max(0, Math.round(area * density))`. -/
def zoneAutoPreview (points : List (ℚ × ℚ)) (density : ℚ) : ℚ × ℤ :=
  (polygonArea points, max 0 (jsround (polygonArea points * density)))

/-- `sectionGridEstimate`: `Math.round(area / Math.max(1e-9, seatPitch * rowPitch))`. -/
def sectionGridEstimate (points : List (ℚ × ℚ)) (seatPitch rowPitch : ℚ) : ℤ :=
  jsround (polygonArea points / max 1e-9 (seatPitch * rowPitch))

/-- Modelled from the spec: the backend grid-mode seat generation endpoint
(`POST /sections/{sectionId}/generate-seats`) is not part of the repository
snapshot; only its frontend caller (`generateSeatsInSection` in `api.ts`)
and the UI estimate (`sectionGridEstimate`) are. Candidate generation per
§4.5: bounding box inset by `margin_m`, rows at `row_pitch_m` steps,
columns at `seat_pitch_m` steps, each candidate tested for containment
against the original polygon. The backend point-in-polygon test is also
missing from the snapshot, so containment is abstracted as the `inside`
parameter. -/
def gridCandidates (inside : ℚ × ℚ → Bool) (points : List (ℚ × ℚ))
    (seatPitch rowPitch marginM : ℚ) : List (ℚ × ℚ) :=
  match points with
  | [] => []
  | q :: qs =>
    if seatPitch ≤ 0 ∨ rowPitch ≤ 0 then []
    else
      let minX := qs.foldl (fun m r => min m r.1) q.1
      let maxX := qs.foldl (fun m r => max m r.1) q.1
      let minY := qs.foldl (fun m r => min m r.2) q.2
      let maxY := qs.foldl (fun m r => max m r.2) q.2
      let x0 := minX + marginM
      let y0 := minY + marginM
      if maxX - marginM < x0 ∨ maxY - marginM < y0 then []
      else
        let nCols := (⌊(maxX - marginM - x0) / seatPitch⌋).toNat + 1
        let nRows := (⌊(maxY - marginM - y0) / rowPitch⌋).toNat + 1
        (List.range nRows).flatMap fun ri =>
          (List.range nCols).filterMap fun ci =>
            let p := (x0 + ci * seatPitch, y0 + ri * rowPitch)
            if inside p then some p else none

/-- Modelled from the spec: grid-mode generation of the backend endpoint
(missing from the snapshot, see `gridCandidates`). §4.5: "Before committing
any seat, estimate the projected count as `area / (seat_pitch_m ·
row_pitch_m)`; if this exceeds `max_seats`, abort with no partial
creation." The abort is an error result carrying no seats. -/
def generateSeatsInSection (inside : ℚ × ℚ → Bool) (points : List (ℚ × ℚ))
    (seatPitch rowPitch marginM : ℚ) (maxSeats : ℤ) : Except String (List (ℚ × ℚ)) :=
  let est := jsround (polygonArea points / (seatPitch * rowPitch))
  if maxSeats < est then Except.error "projected seat count exceeds max_seats"
  else Except.ok (gridCandidates inside points seatPitch rowPitch marginM)

/-! ## Specification-side polygon formulas (for refinement statements) -/

/-- Sum of `f` over consecutive vertex pairs of `l`, including the wrap-around
pair, phrased structurally (zip with the list rotated by one). -/
def cyclicPairSum (f : ℚ × ℚ → ℚ × ℚ → ℚ) (l : List (ℚ × ℚ)) : ℚ :=
  (List.zipWith f l (l.rotate 1)).sum

/-- The shoelace sum `Σ (xᵢ yᵢ₊₁ - xᵢ₊₁ yᵢ)` over consecutive vertex pairs. -/
def shoelaceSum (l : List (ℚ × ℚ)) : ℚ :=
  cyclicPairSum (fun p q => p.1 * q.2 - q.1 * p.2) l

/-- Standard area-weighted polygon centroid,
`( Σ (xᵢ+xᵢ₊₁)·crossᵢ, Σ (yᵢ+yᵢ₊₁)·crossᵢ ) / (6 · signed area)`. -/
def centroidSpec (l : List (ℚ × ℚ)) : ℚ × ℚ :=
  (cyclicPairSum (fun p q => (p.1 + q.1) * (p.1 * q.2 - q.1 * p.2)) l /
      (6 * (shoelaceSum l / 2)),
    cyclicPairSum (fun p q => (p.2 + q.2) * (p.1 * q.2 - q.1 * p.2)) l /
      (6 * (shoelaceSum l / 2)))

/-! ## Arc model (source: `pointOnArc`, `arcFrom3Points`, `dist`), embedded
over `ℝ` since the source uses `atan2`, `cos`, `sin` and `sqrt`. `x * x`
products are written `x ^ 2`. -/

/-- JS truncation toward zero (the rounding of the JS `%` operator). -/
noncomputable def jstrunc (y : ℝ) : ℤ :=
  if 0 ≤ y then ⌊y⌋ else ⌈y⌉

/-- JS `x % p`: remainder with the sign of the dividend. -/
noncomputable def jsfmod (x p : ℝ) : ℝ :=
  x - p * jstrunc (x / p)

/-- The JS normalization idiom `((r % p) + p) % p`. -/
noncomputable def jsnorm (r p : ℝ) : ℝ :=
  jsfmod (jsfmod r p + p) p

/-- `toRad` of `pointOnArc`: degrees to radians. -/
noncomputable def toRad (d : ℝ) : ℝ := d * Real.pi / 180

/-- `Math.atan2(y, x)`: the argument of the complex number `x + y i`. -/
noncomputable def atan2 (y x : ℝ) : ℝ := Complex.arg ⟨x, y⟩

/-- The arc segment record `{cx, cy, r, start_deg, end_deg, cw}`. -/
structure ArcSeg where
  cx : ℝ
  cy : ℝ
  r : ℝ
  start_deg : ℝ
  end_deg : ℝ
  cw : Bool

/-- `dist(a, b) = Math.hypot(a.x - b.x, a.y - b.y)`. -/
noncomputable def dist (a b : ℝ × ℝ) : ℝ :=
  Real.sqrt ((a.1 - b.1) ^ 2 + (a.2 - b.2) ^ 2)

/-- `cwDelta` of `pointOnArc`: `(s - e + 2π) % (2π)`. -/
noncomputable def cwDelta (s e : ℝ) : ℝ := jsfmod (s - e + 2 * Real.pi) (2 * Real.pi)

/-- `ccwDelta` of `pointOnArc`: `(e - s + 2π) % (2π)`. -/
noncomputable def ccwDelta (s e : ℝ) : ℝ := jsfmod (e - s + 2 * Real.pi) (2 * Real.pi)

/-- `pointOnArc(seg, t01)`: normalize start/end angles, take the signed
angular delta for the direction, clamp `t01` to `[0, 1]`, interpolate the
angle and project `center + r·(cos θ, sin θ)`. -/
noncomputable def pointOnArc (seg : ArcSeg) (t01 : ℝ) : ℝ × ℝ :=
  let s := jsnorm (toRad seg.start_deg) (2 * Real.pi)
  let e := jsnorm (toRad seg.end_deg) (2 * Real.pi)
  let delta := if seg.cw then cwDelta s e else ccwDelta s e
  let t := max 0 (min 1 t01)
  let ang := if seg.cw then jsnorm (s - delta * t) (2 * Real.pi)
             else jsnorm (s + delta * t) (2 * Real.pi)
  (seg.cx + seg.r * Real.cos ang, seg.cy + seg.r * Real.sin ang)

/-- The determinant `d = 2·(ax(by-cy) + bx(cy-ay) + cx(ay-by))` of
`arcFrom3Points` (twice the cross product of `b - a` and `c - a`). -/
noncomputable def arcDet (a b c : ℝ × ℝ) : ℝ :=
  2 * (a.1 * (b.2 - c.2) + b.1 * (c.2 - a.2) + c.1 * (a.2 - b.2))

/-- The two-perpendicular-bisector intersection `(ux, uy)` of
`arcFrom3Points`. -/
noncomputable def circumcenter (a b c : ℝ × ℝ) : ℝ × ℝ :=
  ((( a.1 ^ 2 + a.2 ^ 2) * (b.2 - c.2) + (b.1 ^ 2 + b.2 ^ 2) * (c.2 - a.2) +
      (c.1 ^ 2 + c.2 ^ 2) * (a.2 - b.2)) / arcDet a b c,
    ((a.1 ^ 2 + a.2 ^ 2) * (c.1 - b.1) + (b.1 ^ 2 + b.2 ^ 2) * (a.1 - c.1) +
      (c.1 ^ 2 + c.2 ^ 2) * (b.1 - a.1)) / arcDet a b c)

/-- `arcFrom3Points(a, b, c)`: `null` when `|d| < 1e-9`, otherwise the arc
centred at the circumcenter through `a` (start), `b` (mid), `c` (end), with
`cw` chosen so that sweeping from the start angle to the end angle passes
through the mid angle, tie-broken by `ccwDelta(s,e) > cwDelta(s,e)`. -/
noncomputable def arcFrom3Points (a b c : ℝ × ℝ) : Option ArcSeg :=
  if |arcDet a b c| < 1e-9 then none
  else
    let u := circumcenter a b c
    let r := Real.sqrt ((a.1 - u.1) ^ 2 + (a.2 - u.2) ^ 2)
    let start := atan2 (a.2 - u.2) (a.1 - u.1) * 180 / Real.pi
    let stop := atan2 (c.2 - u.2) (c.1 - u.1) * 180 / Real.pi
    let mid := atan2 (b.2 - u.2) (b.1 - u.1) * 180 / Real.pi
    let s := jsnorm start 360
    let e := jsnorm stop 360
    let m := jsnorm mid 360
    let ccwD := fun s e => jsfmod (e - s + 360) 360
    let cwD := fun s e => jsfmod (s - e + 360) 360
    let inCCW := ccwD s m ≤ ccwD s e
    let inCW := cwD s m ≤ cwD s e
    let cw := if inCW ∧ ¬inCCW then true
              else if ¬inCW ∧ inCCW then false
              else if ccwD s e > cwD s e then true else false
    some ⟨u.1, u.2, r, start, stop, cw⟩

/-! ## Snap resolver (source: `snap`, `closestPointOnSegment` and the
`consider` closure in `App.tsx`) -/

/-- `closestPointOnSegment(p, a, b)`: perpendicular projection clamped to
the segment's parameter range `[0, 1]`, with the degenerate-segment guard
`ab2 <= 1e-12`. -/
noncomputable def closestPointOnSegment (p a b : ℝ × ℝ) : ℝ × ℝ :=
  let abx := b.1 - a.1
  let aby := b.2 - a.2
  let apx := p.1 - a.1
  let apy := p.2 - a.2
  let ab2 := abx ^ 2 + aby ^ 2
  if ab2 ≤ 1e-12 then a
  else
    let t := max 0 (min 1 ((apx * abx + apy * aby) / ab2))
    (a.1 + abx * t, a.2 + aby * t)

/-- Row path segments as stored in a row's `geom_json`. -/
inductive RowSeg where
  | line (x1 y1 x2 y2 : ℝ)
  | arc (seg : ArcSeg)

/-- Features the snap scan considers for one section polygon: its vertices,
then for each edge the closest point on that edge to the cursor. -/
noncomputable def sectionFeatures (p : ℝ × ℝ) (pts : List (ℝ × ℝ)) :
    List (ℝ × ℝ) :=
  pts ++ (List.range pts.length).map fun i =>
    closestPointOnSegment p (pts.getD i (0, 0)) (pts.getD ((i + 1) % pts.length) (0, 0))

/-- Features the snap scan considers for one row segment: both endpoints and
the closest point for a line, 25 sampled points (`i/24`, `i = 0..24`) for an
arc. -/
noncomputable def rowSegFeatures (p : ℝ × ℝ) : RowSeg → List (ℝ × ℝ)
  | RowSeg.line x1 y1 x2 y2 =>
      [(x1, y1), (x2, y2), closestPointOnSegment p (x1, y1) (x2, y2)]
  | RowSeg.arc seg => (List.range 25).map fun i => pointOnArc seg (i / 24)

/-- All candidate snap features in the scan order of the source: all
sections (vertices then edges), then all rows. -/
noncomputable def snapCandidates (p : ℝ × ℝ) (sections : List (List (ℝ × ℝ)))
    (rows : List (List RowSeg)) : List (ℝ × ℝ) :=
  sections.flatMap (sectionFeatures p) ++
    rows.flatMap fun r => r.flatMap (rowSegFeatures p)

/-- The `consider` closure of `snap`: keep the candidate if it is within
tolerance and strictly closer than the best so far (`bestDist` starts at
`Infinity`, modelled by the `none` state). -/
noncomputable def considerStep (tol : ℝ) (p : ℝ × ℝ)
    (st : Option (ℝ × (ℝ × ℝ))) (q : ℝ × ℝ) : Option (ℝ × (ℝ × ℝ)) :=
  match st with
  | none => if dist q p ≤ tol then some (dist q p, q) else none
  | some (bd, bp) =>
      if dist q p ≤ tol ∧ dist q p < bd then some (dist q p, q) else some (bd, bp)

/-- `snap(p)`: identity when snapping is disabled; otherwise the nearest
scanned feature within tolerance `max(step * 2, 0.25)` where
`step = max(0.001, gridStep)`, falling back to rounding the cursor to the
nearest grid step. -/
noncomputable def snap (snapEnabled : Bool) (gridStep : ℝ)
    (sections : List (List (ℝ × ℝ))) (rows : List (List RowSeg))
    (p : ℝ × ℝ) : ℝ × ℝ :=
  if !snapEnabled then p
  else
    let step := max 0.001 gridStep
    let tol := max (step * 2) 0.25
    match (snapCandidates p sections rows).foldl (considerStep tol p) none with
    | some (_, q) => q
    | none => ((round (p.1 / step) : ℤ) * step, (round (p.2 / step) : ℤ) * step)

/-! ## Helper lemmas -/

theorem jsround_eq {q : ℚ} {n : ℤ} (h1 : (n : ℚ) ≤ q + 1 / 2) (h2 : q + 1 / 2 < n + 1) :
    jsround q = n := by
  rw [jsround]
  exact Int.floor_eq_iff.mpr ⟨h1, by exact_mod_cast h2⟩

theorem list_sum_map_neg (l : List ℚ) : (l.map fun x => -x).sum = -l.sum := by
  induction l with
  | nil => simp
  | cons a t ih => simp [ih]; ring

/-- `zipWith` of two equal-length lists commutes with a common rotation. -/
theorem zipWith_rotate (f : ℚ × ℚ → ℚ × ℚ → ℚ) (a b : List (ℚ × ℚ))
    (h : a.length = b.length) (k : ℕ) :
    List.zipWith f (a.rotate k) (b.rotate k) = (List.zipWith f a b).rotate k := by
  rcases Nat.eq_zero_or_pos a.length with h0 | hpos
  · have ha : a = [] := List.length_eq_zero.mp h0
    have hb : b = [] := List.length_eq_zero.mp (h ▸ h0)
    subst ha; subst hb; simp
  · have hzlen : (List.zipWith f a b).length = a.length := by
      simp [List.length_zipWith, h]
    rw [← List.rotate_mod a k, ← List.rotate_mod b k, ← List.rotate_mod (List.zipWith f a b) k]
    rw [hzlen, ← h]
    have hma : k % a.length ≤ a.length := le_of_lt (Nat.mod_lt _ hpos)
    have hmb : k % a.length ≤ b.length := by rw [← h]; exact hma
    have hmz : k % a.length ≤ (List.zipWith f a b).length := by rw [hzlen]; exact hma
    rw [List.rotate_eq_drop_append_take hma, List.rotate_eq_drop_append_take hmb,
      List.rotate_eq_drop_append_take hmz]
    rw [List.zipWith_append _ _ _ _ _ (by simp [h]), List.drop_zipWith, List.take_zipWith]

/-- The structural cyclic-pair sum equals the indexed loop the source code runs. -/
theorem cyclicPairSum_eq_range (f : ℚ × ℚ → ℚ × ℚ → ℚ) (l : List (ℚ × ℚ)) :
    cyclicPairSum f l = ∑ i ∈ Finset.range l.length, f (pt l i) (pt l (i + 1)) := by
  rcases Nat.eq_zero_or_pos l.length with h0 | hpos
  · have ha : l = [] := List.length_eq_zero.mp h0
    subst ha; simp [cyclicPairSum]
  · have h1 : List.zipWith f l (l.rotate 1) =
        List.ofFn (fun i : Fin l.length =>
          f (l.getD i (0, 0)) (l.getD ((i + 1) % l.length) (0, 0))) := by
      apply List.ext_getElem
      · simp [List.length_zipWith]
      · intro i hi1 hi2
        have hil : i < l.length := by simpa [List.length_zipWith] using hi1
        have hrl : i < (l.rotate 1).length := by simpa using hil
        rw [List.getElem_ofFn, List.getElem_zipWith]
        rw [List.getElem_rotate]
        rw [List.getD_eq_getElem l (0, 0) hil,
          List.getD_eq_getElem l (0, 0) (Nat.mod_lt _ hpos)]
    rw [cyclicPairSum, h1, Fin.sum_ofFn,
      Fin.sum_univ_eq_sum_range
        (fun i => f (l.getD i (0, 0)) (l.getD ((i + 1) % l.length) (0, 0))) l.length]
    refine Finset.sum_congr rfl fun i hi => ?_
    have hil : i < l.length := Finset.mem_range.mp hi
    rw [pt, pt, Nat.mod_eq_of_lt hil]

/-- `polygonArea` in terms of the structural shoelace sum. -/
theorem polygonArea_shoelace (l : List (ℚ × ℚ)) :
    polygonArea l = if l.length < 3 then 0 else |shoelaceSum l| / 2 := by
  rw [polygonArea, shoelaceSum, cyclicPairSum_eq_range]

theorem polygonArea_nonneg (l : List (ℚ × ℚ)) : 0 ≤ polygonArea l := by
  rw [polygonArea]
  split
  · exact le_refl 0
  · positivity

/-- Cyclic-pair sums are invariant under rotation of the vertex list. -/
theorem cyclicPairSum_rotate (f : ℚ × ℚ → ℚ × ℚ → ℚ) (l : List (ℚ × ℚ)) (k : ℕ) :
    cyclicPairSum f (l.rotate k) = cyclicPairSum f l := by
  rw [cyclicPairSum, cyclicPairSum, List.rotate_rotate]
  have h1 : l.rotate (1 + k) = (l.rotate 1).rotate k := by
    rw [List.rotate_rotate]
  rw [Nat.add_comm k 1, h1, zipWith_rotate f l (l.rotate 1) (by simp) k]
  exact ((List.zipWith f l (l.rotate 1)).rotate_perm k).sum_eq

/-- Reversing the vertex list flips the argument order of a cyclic-pair sum. -/
theorem cyclicPairSum_reverse (f : ℚ × ℚ → ℚ × ℚ → ℚ) (l : List (ℚ × ℚ)) :
    cyclicPairSum f l.reverse = cyclicPairSum (fun p q => f q p) l := by
  rcases Nat.lt_or_ge l.length 2 with hsmall | hbig
  · interval_cases h : l.length
    · have : l = [] := List.length_eq_zero.mp h
      subst this; simp [cyclicPairSum]
    · obtain ⟨a, rfl⟩ := List.length_eq_one.mp h
      simp [cyclicPairSum]
  · have h1mod : 1 % l.length = 1 := Nat.mod_eq_of_lt (by omega)
    have hrot : l.reverse.rotate 1 = (l.rotate (l.length - 1)).reverse := by
      rw [List.rotate_reverse, h1mod]
    have hlen : l.length = (l.rotate (l.length - 1)).length := by simp
    have hll : (l.rotate (l.length - 1)).rotate 1 = l := by
      rw [List.rotate_rotate]
      have : l.length - 1 + 1 = l.length := by omega
      rw [this, List.rotate_length]
    rw [cyclicPairSum, hrot, ← List.reverse_zipWith hlen, List.sum_reverse]
    rw [List.zipWith_comm f]
    calc (List.zipWith (fun q p => f p q) (l.rotate (l.length - 1)) l).sum
        = (List.zipWith (fun q p => f p q) (l.rotate (l.length - 1))
            ((l.rotate (l.length - 1)).rotate 1)).sum := by rw [hll]
      _ = cyclicPairSum (fun p q => f q p) (l.rotate (l.length - 1)) := rfl
      _ = cyclicPairSum (fun p q => f q p) l := cyclicPairSum_rotate _ l _

/-- Negating the pair function negates a cyclic-pair sum. -/
theorem cyclicPairSum_neg (f : ℚ × ℚ → ℚ × ℚ → ℚ) (l : List (ℚ × ℚ)) :
    cyclicPairSum (fun p q => -(f p q)) l = -cyclicPairSum f l := by
  rw [cyclicPairSum, cyclicPairSum,
    ← List.map_zipWith (fun x => -x) f l (l.rotate 1), list_sum_map_neg]

/-! ## Arc model helper lemmas -/

theorem jsfmod_sub_int (x p : ℝ) : ∃ k : ℤ, jsfmod x p = x - p * k :=
  ⟨jstrunc (x / p), rfl⟩

theorem jsnorm_cong (r p : ℝ) : ∃ k : ℤ, jsnorm r p = r + p * k := by
  obtain ⟨k1, h1⟩ := jsfmod_sub_int r p
  obtain ⟨k2, h2⟩ := jsfmod_sub_int (jsfmod r p + p) p
  refine ⟨1 - k1 - k2, ?_⟩
  rw [jsnorm, h2, h1]
  push_cast
  ring

theorem cos_add_two_pi_int (x : ℝ) (k : ℤ) :
    Real.cos (x + 2 * Real.pi * k) = Real.cos x := by
  rw [show x + 2 * Real.pi * (k : ℝ) = x + (k : ℝ) * (2 * Real.pi) by ring]
  exact Real.cos_add_int_mul_two_pi x k

theorem sin_add_two_pi_int (x : ℝ) (k : ℤ) :
    Real.sin (x + 2 * Real.pi * k) = Real.sin x := by
  rw [show x + 2 * Real.pi * (k : ℝ) = x + (k : ℝ) * (2 * Real.pi) by ring]
  exact Real.sin_add_int_mul_two_pi x k

/-- `pointOnArc` at parameter 0 projects the (un-normalized) start angle:
all the `%`-normalizations shift the angle by multiples of `2π` only. -/
theorem pointOnArc_zero (seg : ArcSeg) :
    pointOnArc seg 0 = (seg.cx + seg.r * Real.cos (toRad seg.start_deg),
      seg.cy + seg.r * Real.sin (toRad seg.start_deg)) := by
  have ht : max (0:ℝ) (min 1 0) = 0 := by norm_num
  obtain ⟨k1, hk1⟩ := jsnorm_cong (toRad seg.start_deg) (2 * Real.pi)
  obtain ⟨k4, hk4⟩ :=
    jsnorm_cong (jsnorm (toRad seg.start_deg) (2 * Real.pi)) (2 * Real.pi)
  have hang : jsnorm (jsnorm (toRad seg.start_deg) (2 * Real.pi)) (2 * Real.pi) =
      toRad seg.start_deg + 2 * Real.pi * ((k1 + k4 : ℤ) : ℝ) := by
    rw [hk4, hk1]; push_cast; ring
  cases hcw : seg.cw <;>
    simp only [pointOnArc, ht, hcw, if_true, if_false, Bool.false_eq_true,
      Bool.true_eq_false, ite_true, ite_false, mul_zero, sub_zero, add_zero] <;>
    rw [hang, cos_add_two_pi_int, sin_add_two_pi_int]

/-- `pointOnArc` at parameter 1 projects the (un-normalized) end angle: in
both directions the interpolated angle differs from the end angle by a
multiple of `2π`. -/
theorem pointOnArc_one (seg : ArcSeg) :
    pointOnArc seg 1 = (seg.cx + seg.r * Real.cos (toRad seg.end_deg),
      seg.cy + seg.r * Real.sin (toRad seg.end_deg)) := by
  have ht : max (0:ℝ) (min 1 1) = 1 := by norm_num
  obtain ⟨k1, hk1⟩ := jsnorm_cong (toRad seg.start_deg) (2 * Real.pi)
  obtain ⟨k2, hk2⟩ := jsnorm_cong (toRad seg.end_deg) (2 * Real.pi)
  set s := jsnorm (toRad seg.start_deg) (2 * Real.pi) with hs
  set e := jsnorm (toRad seg.end_deg) (2 * Real.pi) with he
  cases hcw : seg.cw
  · obtain ⟨k3, hk3⟩ := jsfmod_sub_int (e - s + 2 * Real.pi) (2 * Real.pi)
    obtain ⟨k4, hk4⟩ := jsnorm_cong (s + ccwDelta s e) (2 * Real.pi)
    have hang : jsnorm (s + ccwDelta s e) (2 * Real.pi) =
        toRad seg.end_deg + 2 * Real.pi * ((k2 + 1 - k3 + k4 : ℤ) : ℝ) := by
      rw [hk4, ccwDelta, hk3, hk2]; push_cast; ring
    simp only [pointOnArc, ht, hcw, Bool.false_eq_true, ite_false, mul_one]
    rw [← hs, ← he, hang, cos_add_two_pi_int, sin_add_two_pi_int]
  · obtain ⟨k3, hk3⟩ := jsfmod_sub_int (s - e + 2 * Real.pi) (2 * Real.pi)
    obtain ⟨k4, hk4⟩ := jsnorm_cong (s - cwDelta s e) (2 * Real.pi)
    have hang : jsnorm (s - cwDelta s e) (2 * Real.pi) =
        toRad seg.end_deg + 2 * Real.pi * ((k2 - 1 + k3 + k4 : ℤ) : ℝ) := by
      rw [hk4, cwDelta, hk3, hk2]; push_cast; ring
    simp only [pointOnArc, ht, hcw, ite_true, mul_one]
    rw [← hs, ← he, hang, cos_add_two_pi_int, sin_add_two_pi_int]

/-- Squared-distance equalities of the two-perpendicular-bisector
intersection: it is equidistant from the three input points. -/
theorem circumcenter_sq_dist (a b c : ℝ × ℝ) (hd : arcDet a b c ≠ 0) :
    ((a.1 - (circumcenter a b c).1) ^ 2 + (a.2 - (circumcenter a b c).2) ^ 2 =
      (b.1 - (circumcenter a b c).1) ^ 2 + (b.2 - (circumcenter a b c).2) ^ 2) ∧
    ((a.1 - (circumcenter a b c).1) ^ 2 + (a.2 - (circumcenter a b c).2) ^ 2 =
      (c.1 - (circumcenter a b c).1) ^ 2 + (c.2 - (circumcenter a b c).2) ^ 2) := by
  obtain ⟨ax, ay⟩ := a
  obtain ⟨bx, by'⟩ := b
  obtain ⟨cx, cy⟩ := c
  simp only [circumcenter, arcDet] at *
  constructor <;> (field_simp; ring)

/-- Collinearity of the three points makes `arcDet` vanish. -/
theorem collinear_arcDet_eq_zero {a b c : ℝ × ℝ}
    (h : Collinear ℝ ({a, b, c} : Set (ℝ × ℝ))) : arcDet a b c = 0 := by
  obtain ⟨v, hv⟩ := (collinear_iff_of_mem (Set.mem_insert a {b, c})).mp h
  obtain ⟨rb, hrb⟩ := hv b (by simp)
  obtain ⟨rc, hrc⟩ := hv c (by simp)
  have hb1 : b.1 = rb * v.1 + a.1 := by rw [hrb]; simp [smul_eq_mul]
  have hb2 : b.2 = rb * v.2 + a.2 := by rw [hrb]; simp [smul_eq_mul]
  have hc1 : c.1 = rc * v.1 + a.1 := by rw [hrc]; simp [smul_eq_mul]
  have hc2 : c.2 = rc * v.2 + a.2 := by rw [hrc]; simp [smul_eq_mul]
  rw [arcDet, hb1, hb2, hc1, hc2]
  ring

theorem dist_comm' (a b : ℝ × ℝ) : dist a b = dist b a := by
  rw [dist, dist]
  congr 1
  ring

/-- Evaluation of `jsfmod` on a nonnegative dividend sitting in the `k`-th
period. -/
theorem jsfmod_eval_nonneg (x p : ℝ) (k : ℤ) (hp : 0 < p) (hx : 0 ≤ x)
    (h1 : (k : ℝ) * p ≤ x) (h2 : x < ((k : ℝ) + 1) * p) :
    jsfmod x p = x - p * k := by
  rw [jsfmod, jstrunc, if_pos (div_nonneg hx hp.le)]
  have hfl : ⌊x / p⌋ = k := by
    rw [Int.floor_eq_iff]
    exact ⟨(le_div_iff₀ hp).mpr h1, (div_lt_iff₀ hp).mpr (by linarith)⟩
  rw [hfl]

/-- The JS double-mod normalization is the identity on `[0, p)`. -/
theorem jsnorm_eval_of_lt (x p : ℝ) (hp : 0 < p) (hx : 0 ≤ x) (hxp : x < p) :
    jsnorm x p = x := by
  have h1 : jsfmod x p = x - p * (0 : ℤ) :=
    jsfmod_eval_nonneg x p 0 hp hx (by norm_num; linarith) (by norm_num; linarith)
  rw [jsnorm, h1]
  have hsimp : x - p * ((0 : ℤ) : ℝ) + p = x + p := by push_cast; ring
  rw [hsimp]
  have h2 : jsfmod (x + p) p = x + p - p * (1 : ℤ) :=
    jsfmod_eval_nonneg (x + p) p 1 hp (by linarith) (by push_cast; linarith)
      (by push_cast; linarith)
  rw [h2]
  push_cast
  ring

/-- Concrete evaluation of the 3-point arc fit on the half circle through
(1,0), (0,1), (-1,0): unit circle about the origin, start angle 0°, end
angle 180°, counter-clockwise. -/
theorem arcFrom3Points_eval :
    arcFrom3Points ((1:ℝ), 0) (0, 1) (-1, 0) = some ⟨0, 0, 1, 0, 180, false⟩ := by
  have hdet : arcDet ((1:ℝ), 0) (0, 1) (-1, 0) = 4 := by rw [arcDet]; norm_num
  have hd : ¬|arcDet ((1:ℝ), 0) (0, 1) (-1, 0)| < 1e-9 := by rw [hdet]; norm_num
  have hu : circumcenter ((1:ℝ), 0) (0, 1) (-1, 0) = (0, 0) := by
    rw [circumcenter, hdet]
    norm_num
  have hstart : atan2 (0:ℝ) 1 = 0 := by
    rw [atan2, show (⟨(1:ℝ), (0:ℝ)⟩ : ℂ) = 1 from by apply Complex.ext <;> norm_num]
    exact Complex.arg_one
  have hstop : atan2 (0:ℝ) (-1) = Real.pi := by
    rw [atan2, show (⟨(-1:ℝ), (0:ℝ)⟩ : ℂ) = -1 from by apply Complex.ext <;> norm_num]
    exact Complex.arg_neg_one
  have hmid : atan2 (1:ℝ) 0 = Real.pi / 2 := by
    rw [atan2, show (⟨(0:ℝ), (1:ℝ)⟩ : ℂ) = Complex.I from by
      apply Complex.ext <;> norm_num]
    exact Complex.arg_I
  have hpi : Real.pi * 180 / Real.pi = 180 := by
    field_simp
  have hpi2 : Real.pi / 2 * 180 / Real.pi = 90 := by
    field_simp
    ring
  have hs0 : jsnorm (0:ℝ) 360 = 0 :=
    jsnorm_eval_of_lt 0 360 (by norm_num) le_rfl (by norm_num)
  have hs90 : jsnorm (90:ℝ) 360 = 90 :=
    jsnorm_eval_of_lt 90 360 (by norm_num) (by norm_num) (by norm_num)
  have hs180 : jsnorm (180:ℝ) 360 = 180 :=
    jsnorm_eval_of_lt 180 360 (by norm_num) (by norm_num) (by norm_num)
  have h450 : jsfmod (450:ℝ) 360 = 90 := by
    rw [jsfmod_eval_nonneg 450 360 1 (by norm_num) (by norm_num) (by norm_num)
      (by norm_num)]
    norm_num
  have h540 : jsfmod (540:ℝ) 360 = 180 := by
    rw [jsfmod_eval_nonneg 540 360 1 (by norm_num) (by norm_num) (by norm_num)
      (by norm_num)]
    norm_num
  have h270 : jsfmod (270:ℝ) 360 = 270 := by
    rw [jsfmod_eval_nonneg 270 360 0 (by norm_num) (by norm_num) (by norm_num)
      (by norm_num)]
    norm_num
  have h180 : jsfmod (180:ℝ) 360 = 180 := by
    rw [jsfmod_eval_nonneg 180 360 0 (by norm_num) (by norm_num) (by norm_num)
      (by norm_num)]
    norm_num
  simp only [arcFrom3Points]
  rw [if_neg hd, hu]
  norm_num [hstart, hstop, hmid, hpi, hpi2, hs0, hs90, hs180, h450, h540, h270,
    h180, Real.sqrt_one]

/-! ## Snap resolver helper lemmas -/

theorem dist_le_iff_sq (a b : ℝ × ℝ) {c : ℝ} (hc : 0 ≤ c) :
    dist a b ≤ c ↔ (a.1 - b.1) ^ 2 + (a.2 - b.2) ^ 2 ≤ c ^ 2 := by
  rw [dist]
  exact Real.sqrt_le_left hc

theorem dist_lt_dist_iff_sq (a b a' b' : ℝ × ℝ) :
    dist a b < dist a' b' ↔
      (a.1 - b.1) ^ 2 + (a.2 - b.2) ^ 2 < (a'.1 - b'.1) ^ 2 + (a'.2 - b'.2) ^ 2 := by
  rw [dist, dist]
  exact Real.sqrt_lt_sqrt_iff (by positivity)

/-- A scan over features all outside tolerance leaves the best-candidate
state unchanged. -/
theorem foldl_consider_far (tol : ℝ) (p : ℝ × ℝ) (l : List (ℝ × ℝ))
    (st : Option (ℝ × (ℝ × ℝ))) (h : ∀ q ∈ l, ¬dist q p ≤ tol) :
    l.foldl (considerStep tol p) st = st := by
  induction l generalizing st with
  | nil => rfl
  | cons q t ih =>
    rw [List.foldl_cons]
    have hq := h q (List.mem_cons_self q t)
    have hstep : considerStep tol p st q = st := by
      cases st with
      | none => simp only [considerStep]; rw [if_neg hq]
      | some pr =>
        obtain ⟨bd, bp⟩ := pr
        simp only [considerStep]
        rw [if_neg (fun hc => hq hc.1)]
    rw [hstep]
    exact ih st (fun q' hq' => h q' (List.mem_cons_of_mem _ hq'))

/-- Invariant of the scan: a `some` state always holds a scanned feature,
its true distance, within tolerance. -/
theorem foldl_consider_inv (tol : ℝ) (p : ℝ × ℝ) (S : List (ℝ × ℝ)) :
    ∀ (l : List (ℝ × ℝ)) (st : Option (ℝ × (ℝ × ℝ))),
      (∀ q ∈ l, q ∈ S) →
      (∀ d q, st = some (d, q) → d = dist q p ∧ d ≤ tol ∧ q ∈ S) →
      ∀ d q, l.foldl (considerStep tol p) st = some (d, q) →
        d = dist q p ∧ d ≤ tol ∧ q ∈ S := by
  intro l
  induction l with
  | nil => intro st _ hst d q hfold; exact hst d q hfold
  | cons a t ih =>
    intro st hl hst d q hfold
    rw [List.foldl_cons] at hfold
    refine ih _ (fun q' hq' => hl q' (List.mem_cons_of_mem _ hq')) ?_ d q hfold
    intro d' q' hstep
    cases st with
    | none =>
      simp only [considerStep] at hstep
      by_cases hc : dist a p ≤ tol
      · rw [if_pos hc] at hstep
        have hpair := Option.some.inj hstep
        have hd1 : d' = dist a p := (Prod.ext_iff.mp hpair).1.symm
        have hq1 : q' = a := (Prod.ext_iff.mp hpair).2.symm
        exact ⟨by rw [hq1]; exact hd1, by rw [hd1]; exact hc,
          by rw [hq1]; exact hl a (List.mem_cons_self a t)⟩
      · rw [if_neg hc] at hstep
        exact Option.noConfusion hstep
    | some pr =>
      obtain ⟨bd, bp⟩ := pr
      simp only [considerStep] at hstep
      by_cases hc : dist a p ≤ tol ∧ dist a p < bd
      · rw [if_pos hc] at hstep
        have hpair := Option.some.inj hstep
        have hd1 : d' = dist a p := (Prod.ext_iff.mp hpair).1.symm
        have hq1 : q' = a := (Prod.ext_iff.mp hpair).2.symm
        exact ⟨by rw [hq1]; exact hd1, by rw [hd1]; exact hc.1,
          by rw [hq1]; exact hl a (List.mem_cons_self a t)⟩
      · rw [if_neg hc] at hstep
        have hpair := Option.some.inj hstep
        have hd1 : d' = bd := (Prod.ext_iff.mp hpair).1.symm
        have hq1 : q' = bp := (Prod.ext_iff.mp hpair).2.symm
        rw [hd1, hq1]
        exact hst bd bp rfl

/-- The scan never increases the best distance. -/
theorem foldl_consider_decrease (tol : ℝ) (p : ℝ × ℝ) :
    ∀ (l : List (ℝ × ℝ)) (d0 : ℝ) (q0 : ℝ × ℝ),
      ∃ d q, l.foldl (considerStep tol p) (some (d0, q0)) = some (d, q) ∧ d ≤ d0 := by
  intro l
  induction l with
  | nil => intro d0 q0; exact ⟨d0, q0, rfl, le_refl d0⟩
  | cons a t ih =>
    intro d0 q0
    rw [List.foldl_cons]
    by_cases hc : dist a p ≤ tol ∧ dist a p < d0
    · have hstep : considerStep tol p (some (d0, q0)) a = some (dist a p, a) := by
        simp only [considerStep]; rw [if_pos hc]
      rw [hstep]
      obtain ⟨d, q, hf, hle⟩ := ih (dist a p) a
      exact ⟨d, q, hf, hle.trans hc.2.le⟩
    · have hstep : considerStep tol p (some (d0, q0)) a = some (d0, q0) := by
        simp only [considerStep]; rw [if_neg hc]
      rw [hstep]
      exact ih d0 q0

/-- If some scanned feature is within tolerance, the scan ends `some`, at a
distance no larger than that feature's. -/
theorem foldl_consider_progress (tol : ℝ) (p : ℝ × ℝ) :
    ∀ (l : List (ℝ × ℝ)) (v : ℝ × ℝ), v ∈ l → dist v p ≤ tol →
      ∀ st, ∃ d q, l.foldl (considerStep tol p) st = some (d, q) ∧ d ≤ dist v p := by
  intro l
  induction l with
  | nil => intro v hv; exact absurd hv (List.not_mem_nil v)
  | cons a t ih =>
    intro v hv hvtol st
    rw [List.foldl_cons]
    rcases List.mem_cons.mp hv with rfl | hvt
    · cases st with
      | none =>
        have hstep : considerStep tol p none v = some (dist v p, v) := by
          simp only [considerStep]; rw [if_pos hvtol]
        rw [hstep]
        exact foldl_consider_decrease tol p t (dist v p) v
      | some pr =>
        obtain ⟨bd, bp⟩ := pr
        by_cases hc : dist v p < bd
        · have hstep : considerStep tol p (some (bd, bp)) v = some (dist v p, v) := by
            simp only [considerStep]; rw [if_pos ⟨hvtol, hc⟩]
          rw [hstep]
          exact foldl_consider_decrease tol p t (dist v p) v
        · have hstep : considerStep tol p (some (bd, bp)) v = some (bd, bp) := by
            simp only [considerStep]; rw [if_neg (fun hcc => hc hcc.2)]
          rw [hstep]
          obtain ⟨d, q, hf, hle⟩ := foldl_consider_decrease tol p t bd bp
          exact ⟨d, q, hf, hle.trans (not_lt.mp hc)⟩
    · exact ih v hvt hvtol _

/-- A section vertex is among the scanned snap candidates. -/
theorem vertex_mem_snapCandidates (p v : ℝ × ℝ) (sections : List (List (ℝ × ℝ)))
    (rows : List (List RowSeg)) (hv : ∃ pts ∈ sections, v ∈ pts) :
    v ∈ snapCandidates p sections rows := by
  obtain ⟨pts, hpts, hvp⟩ := hv
  refine List.mem_append_left _ ?_
  refine List.mem_flatMap.mpr ⟨pts, hpts, ?_⟩
  exact List.mem_append_left _ hvp

/-! ## Claims -/

/-- **C4.** `arcFrom3Points(a, b, c)` returns none exactly when the
two-perpendicular-bisector determinant `d` has absolute value below 1e-9;
in particular, for every triple of exactly collinear points it returns
none, and otherwise it returns an arc whose center is the circumcenter of
`a`, `b`, `c` (equidistant from all three) with radius equal to the
distance from that center to `a`. -/
theorem c4_arcFrom3Points_circumcenter (a b c : ℝ × ℝ) :
    (arcFrom3Points a b c = none ↔ |arcDet a b c| < 1e-9) ∧
    (Collinear ℝ ({a, b, c} : Set (ℝ × ℝ)) → arcFrom3Points a b c = none) ∧
    ∀ arc, arcFrom3Points a b c = some arc →
      dist (arc.cx, arc.cy) a = dist (arc.cx, arc.cy) b ∧
      dist (arc.cx, arc.cy) a = dist (arc.cx, arc.cy) c ∧
      arc.r = dist (arc.cx, arc.cy) a := by
  refine ⟨⟨fun h => ?_, fun h => ?_⟩, fun hcol => ?_, fun arc h => ?_⟩
  · by_contra hd
    simp only [arcFrom3Points, if_neg hd] at h
    exact Option.noConfusion h
  · simp only [arcFrom3Points, if_pos h]
  · have h0 : arcDet a b c = 0 := collinear_arcDet_eq_zero hcol
    simp only [arcFrom3Points]
    rw [if_pos (by rw [h0]; norm_num)]
  · simp only [arcFrom3Points] at h
    by_cases hd : |arcDet a b c| < 1e-9
    · rw [if_pos hd] at h
      exact absurd h (by simp)
    · rw [if_neg hd] at h
      have hdz : arcDet a b c ≠ 0 := fun h0 => hd (by rw [h0]; norm_num)
      obtain ⟨hsq1, hsq2⟩ := circumcenter_sq_dist a b c hdz
      have harc := (Option.some.inj h).symm
      subst harc
      refine ⟨?_, ?_, ?_⟩
      · rw [dist, dist]
        congr 1
        linear_combination hsq1
      · rw [dist, dist]
        congr 1
        linear_combination hsq2
      · rw [dist]
        ring_nf

theorem c4_arcFrom3Points_circumcenter_witness :
    arcFrom3Points ((0:ℝ), (0:ℝ)) (1, 0) (2, 0) = none ∧
    dist ((0:ℝ), (0:ℝ)) (1, 0) = dist ((0:ℝ), (0:ℝ)) (0, 1) ∧
    dist ((0:ℝ), (0:ℝ)) (1, 0) = dist ((0:ℝ), (0:ℝ)) (-1, 0) ∧
    (1 : ℝ) = dist ((0:ℝ), (0:ℝ)) (1, 0) := by
  constructor
  · exact (c4_arcFrom3Points_circumcenter (0, 0) (1, 0) (2, 0)).1.mpr
      (by rw [arcDet]; norm_num)
  · have h := (c4_arcFrom3Points_circumcenter ((1:ℝ), 0) (0, 1) (-1, 0)).2.2
      ⟨0, 0, 1, 0, 180, false⟩ arcFrom3Points_eval
    exact h

/-- **C5.** For every arc successfully produced by `arcFrom3Points(a, b, c)`,
`pointOnArc(arc, 0)` reproduces the start point `a` and `pointOnArc(arc, 1)`
reproduces the end point `c`, each to within 1e-6 (in exact real arithmetic
they are reproduced exactly: the normalized angles differ from the `atan2`
angles of `a` and `c` by multiples of `2π`, and the radius equals the
distance from the circumcenter to `c` as well as to `a`). -/
theorem c5_pointOnArc_endpoints (a b c : ℝ × ℝ) (arc : ArcSeg)
    (h : arcFrom3Points a b c = some arc) :
    dist (pointOnArc arc 0) a ≤ 1e-6 ∧ dist (pointOnArc arc 1) c ≤ 1e-6 := by
  simp only [arcFrom3Points] at h
  by_cases hd : |arcDet a b c| < 1e-9
  · rw [if_pos hd] at h
    exact absurd h (by simp)
  · rw [if_neg hd] at h
    have hdz : arcDet a b c ≠ 0 := fun h0 => hd (by rw [h0]; norm_num)
    obtain ⟨hsq1, hsq2⟩ := circumcenter_sq_dist a b c hdz
    have harc := (Option.some.inj h).symm
    subst harc
    set u := circumcenter a b c with hu
    have hsum_nonneg : (0:ℝ) ≤ (a.1 - u.1) ^ 2 + (a.2 - u.2) ^ 2 := by positivity
    have hra : 0 < (a.1 - u.1) ^ 2 + (a.2 - u.2) ^ 2 := by
      rcases lt_or_eq_of_le hsum_nonneg with hlt | heq
      · exact hlt
      · exfalso
        apply hdz
        have h1 : (a.1 - u.1) ^ 2 = 0 := by nlinarith [sq_nonneg (a.2 - u.2)]
        have h2 : (a.2 - u.2) ^ 2 = 0 := by nlinarith [sq_nonneg (a.1 - u.1)]
        have h3 : (b.1 - u.1) ^ 2 = 0 := by nlinarith [sq_nonneg (b.2 - u.2)]
        have h4 : (b.2 - u.2) ^ 2 = 0 := by nlinarith [sq_nonneg (b.1 - u.1)]
        have h5 : (c.1 - u.1) ^ 2 = 0 := by nlinarith [sq_nonneg (c.2 - u.2)]
        have h6 : (c.2 - u.2) ^ 2 = 0 := by nlinarith [sq_nonneg (c.1 - u.1)]
        have ea1 := sub_eq_zero.mp (sq_eq_zero_iff.mp h1)
        have ea2 := sub_eq_zero.mp (sq_eq_zero_iff.mp h2)
        have eb1 := sub_eq_zero.mp (sq_eq_zero_iff.mp h3)
        have eb2 := sub_eq_zero.mp (sq_eq_zero_iff.mp h4)
        have ec1 := sub_eq_zero.mp (sq_eq_zero_iff.mp h5)
        have ec2 := sub_eq_zero.mp (sq_eq_zero_iff.mp h6)
        rw [arcDet, ea1, ea2, eb1, eb2, ec1, ec2]
        ring
    set R := Real.sqrt ((a.1 - u.1) ^ 2 + (a.2 - u.2) ^ 2) with hRdef
    have hRpos : 0 < R := Real.sqrt_pos.mpr hra
    have hrc : 0 < (c.1 - u.1) ^ 2 + (c.2 - u.2) ^ 2 := by
      rw [← hsq2]
      exact hra
    have hzA : (⟨a.1 - u.1, a.2 - u.2⟩ : ℂ) ≠ 0 := by
      intro h0
      have h01 : a.1 - u.1 = 0 := by simpa using congrArg Complex.re h0
      have h02 : a.2 - u.2 = 0 := by simpa using congrArg Complex.im h0
      rw [h01, h02] at hra
      norm_num at hra
    have hzC : (⟨c.1 - u.1, c.2 - u.2⟩ : ℂ) ≠ 0 := by
      intro h0
      have h01 : c.1 - u.1 = 0 := by simpa using congrArg Complex.re h0
      have h02 : c.2 - u.2 = 0 := by simpa using congrArg Complex.im h0
      rw [h01, h02] at hrc
      norm_num at hrc
    have habsA : Complex.abs ⟨a.1 - u.1, a.2 - u.2⟩ = R := by
      rw [Complex.abs_apply, Complex.normSq_mk, hRdef]
      congr 1
      ring
    have habsC : Complex.abs ⟨c.1 - u.1, c.2 - u.2⟩ = R := by
      rw [Complex.abs_apply, Complex.normSq_mk, hRdef]
      rw [show (c.1 - u.1) * (c.1 - u.1) + (c.2 - u.2) * (c.2 - u.2) =
        (c.1 - u.1) ^ 2 + (c.2 - u.2) ^ 2 from by ring, ← hsq2]
    have htrA : toRad (atan2 (a.2 - u.2) (a.1 - u.1) * 180 / Real.pi) =
        Complex.arg ⟨a.1 - u.1, a.2 - u.2⟩ := by
      rw [toRad, atan2]
      field_simp
    have htrC : toRad (atan2 (c.2 - u.2) (c.1 - u.1) * 180 / Real.pi) =
        Complex.arg ⟨c.1 - u.1, c.2 - u.2⟩ := by
      rw [toRad, atan2]
      field_simp
    constructor
    · rw [pointOnArc_zero]
      dsimp only
      rw [htrA, Complex.cos_arg hzA, Complex.sin_arg, habsA]
      dsimp only
      have hp1 : u.1 + R * ((a.1 - u.1) / R) = a.1 := by field_simp
      have hp2 : u.2 + R * ((a.2 - u.2) / R) = a.2 := by field_simp
      rw [hp1, hp2, dist]
      norm_num
    · rw [pointOnArc_one]
      dsimp only
      rw [htrC, Complex.cos_arg hzC, Complex.sin_arg, habsC]
      dsimp only
      have hp1 : u.1 + R * ((c.1 - u.1) / R) = c.1 := by field_simp
      have hp2 : u.2 + R * ((c.2 - u.2) / R) = c.2 := by field_simp
      rw [hp1, hp2, dist]
      norm_num

theorem c5_pointOnArc_endpoints_witness :
    dist (pointOnArc ⟨0, 0, 1, 0, 180, false⟩ 0) ((1:ℝ), 0) ≤ 1e-6 ∧
    dist (pointOnArc ⟨0, 0, 1, 0, 180, false⟩ 1) ((-1:ℝ), 0) ≤ 1e-6 :=
  c5_pointOnArc_endpoints (1, 0) (0, 1) (-1, 0) ⟨0, 0, 1, 0, 180, false⟩
    arcFrom3Points_eval

/-- **C10.** `pointOnArc` is total in its parameter: the parameter is
clamped to [0, 1], so every `t ≤ 0` yields the arc's start point, every
`t ≥ 1` yields the arc's end point, and the returned point always lies on
the circle of radius `r` about the arc's center (for the nonnegative radii
of arcs). -/
theorem c10_pointOnArc_clamped (seg : ArcSeg) (t : ℝ) (hr : 0 ≤ seg.r) :
    (t ≤ 0 → pointOnArc seg t = pointOnArc seg 0) ∧
    (1 ≤ t → pointOnArc seg t = pointOnArc seg 1) ∧
    dist (pointOnArc seg t) (seg.cx, seg.cy) = seg.r := by
  refine ⟨fun ht => ?_, fun ht => ?_, ?_⟩
  · have hc : max (0:ℝ) (min 1 t) = max 0 (min 1 (0:ℝ)) := by
      rw [min_eq_right (ht.trans zero_le_one), max_eq_left ht]
      norm_num
    simp only [pointOnArc, hc]
  · have hc : max (0:ℝ) (min 1 t) = max 0 (min 1 (1:ℝ)) := by
      rw [min_eq_left ht]
      norm_num
    simp only [pointOnArc, hc]
  · simp only [pointOnArc, dist]
    have h1 : ∀ A : ℝ,
        (seg.cx + seg.r * Real.cos A - seg.cx) ^ 2 +
          (seg.cy + seg.r * Real.sin A - seg.cy) ^ 2 = seg.r ^ 2 := by
      intro A
      have hcs := Real.cos_sq_add_sin_sq A
      have hexp : (seg.cx + seg.r * Real.cos A - seg.cx) ^ 2 +
          (seg.cy + seg.r * Real.sin A - seg.cy) ^ 2 =
          seg.r ^ 2 * (Real.cos A ^ 2 + Real.sin A ^ 2) := by ring
      rw [hexp, hcs, mul_one]
    rw [h1]
    exact Real.sqrt_sq hr

theorem c10_pointOnArc_clamped_witness :
    pointOnArc ⟨0, 0, 1, 0, 180, false⟩ 2 = pointOnArc ⟨0, 0, 1, 0, 180, false⟩ 1 ∧
    dist (pointOnArc ⟨0, 0, 1, 0, 180, false⟩ 2) (0, 0) = 1 := by
  have h := c10_pointOnArc_clamped ⟨0, 0, 1, 0, 180, false⟩ 2 (by norm_num)
  exact ⟨h.2.1 (by norm_num), h.2.2⟩

/-- **C7 (amended).** With snap tolerance `max(2·grid_step, 0.25)` (and the
grid step floored at 0.001): if a section polygon vertex lies within
tolerance of the cursor, the snap resolver returns a scanned feature at
distance at most that vertex's distance (an exact polygon vertex whenever
every non-vertex scanned feature is strictly farther than that vertex —
but an edge projection point may win otherwise, see the counterexample);
and if no scanned feature lies within tolerance, it returns the cursor
rounded to the nearest grid step. -/
theorem c7_snap_resolver (gridStep : ℝ) (sections : List (List (ℝ × ℝ)))
    (rows : List (List RowSeg)) (p v : ℝ × ℝ) :
    ((∃ pts ∈ sections, v ∈ pts) →
      dist v p ≤ max (max 0.001 gridStep * 2) 0.25 →
      ∃ q ∈ snapCandidates p sections rows,
        snap true gridStep sections rows p = q ∧ dist q p ≤ dist v p) ∧
    ((∃ pts ∈ sections, v ∈ pts) →
      dist v p ≤ max (max 0.001 gridStep * 2) 0.25 →
      (∀ q ∈ snapCandidates p sections rows, (∀ pts ∈ sections, q ∉ pts) →
        dist v p < dist q p) →
      ∃ w, (∃ pts ∈ sections, w ∈ pts) ∧ snap true gridStep sections rows p = w) ∧
    ((∀ q ∈ snapCandidates p sections rows,
        ¬dist q p ≤ max (max 0.001 gridStep * 2) 0.25) →
      snap true gridStep sections rows p =
        ((round (p.1 / max 0.001 gridStep) : ℤ) * max 0.001 gridStep,
          (round (p.2 / max 0.001 gridStep) : ℤ) * max 0.001 gridStep)) := by
  have hmain : (∃ pts ∈ sections, v ∈ pts) →
      dist v p ≤ max (max 0.001 gridStep * 2) 0.25 →
      ∃ q ∈ snapCandidates p sections rows,
        snap true gridStep sections rows p = q ∧ dist q p ≤ dist v p := by
    intro hv hvtol
    have hvc := vertex_mem_snapCandidates p v sections rows hv
    obtain ⟨d, q, hfold, hle⟩ :=
      foldl_consider_progress (max (max 0.001 gridStep * 2) 0.25) p
        (snapCandidates p sections rows) v hvc hvtol none
    obtain ⟨hdq, -, hqS⟩ :=
      foldl_consider_inv (max (max 0.001 gridStep * 2) 0.25) p
        (snapCandidates p sections rows) (snapCandidates p sections rows) none
        (fun q hq => hq) (fun d q h => Option.noConfusion h) d q hfold
    refine ⟨q, hqS, ?_, by rw [← hdq]; exact hle⟩
    simp only [snap, Bool.not_true, Bool.false_eq_true, if_false, hfold]
  refine ⟨hmain, ?_, ?_⟩
  · intro hv hvtol hstrict
    obtain ⟨q, hqS, hsnap, hqle⟩ := hmain hv hvtol
    refine ⟨q, ?_, hsnap⟩
    by_contra hnq
    push_neg at hnq
    exact absurd hqle (not_le.mpr (hstrict q hqS hnq))
  · intro hall
    have hfold := foldl_consider_far (max (max 0.001 gridStep * 2) 0.25) p
      (snapCandidates p sections rows) none hall
    simp only [snap, Bool.not_true, Bool.false_eq_true, if_false, hfold]

/-- **C7 (counterexample).** The claim "if a section polygon vertex lies
within tolerance of the cursor, the snap resolver returns an exact polygon
vertex" fails: for the cursor (0.2, 0.05) over the triangle
(0,0),(10,0),(0,10) with grid step 0.1 (tolerance 0.25), the vertex (0,0)
is within tolerance (distance ≈ 0.206), but the resolver returns the edge
projection (0.2, 0), which is not a polygon vertex. -/
theorem c7_snap_resolver_counterexample :
    dist ((0:ℝ), (0:ℝ)) (0.2, 0.05) ≤ max (max 0.001 0.1 * 2) 0.25 ∧
    ((0:ℝ), (0:ℝ)) ∈ [((0:ℝ), (0:ℝ)), (10, 0), (0, 10)] ∧
    snap true 0.1 [[(0, 0), (10, 0), (0, 10)]] [] (0.2, 0.05) = (0.2, 0) ∧
    ∀ w ∈ [((0:ℝ), (0:ℝ)), (10, 0), (0, 10)], ((0.2:ℝ), (0:ℝ)) ≠ w := by
  have htol : max (max (0.001:ℝ) 0.1 * 2) 0.25 = 0.25 := by
    norm_num [max_def]
  refine ⟨?_, by simp, ?_, ?_⟩
  · rw [htol, dist_le_iff_sq _ _ (by norm_num : (0:ℝ) ≤ 0.25)]
    norm_num
  · have hcps0 : closestPointOnSegment ((0.2:ℝ), 0.05) (0, 0) (10, 0) = (0.2, 0) := by
      simp only [closestPointOnSegment]
      rw [if_neg (by norm_num)]
      norm_num [min_def, max_def]
    have hcps1 : closestPointOnSegment ((0.2:ℝ), 0.05) (10, 0) (0, 10) =
        (5.075, 4.925) := by
      simp only [closestPointOnSegment]
      rw [if_neg (by norm_num)]
      norm_num [min_def, max_def]
    have hcps2 : closestPointOnSegment ((0.2:ℝ), 0.05) (0, 10) (0, 0) =
        (0, 0.05) := by
      simp only [closestPointOnSegment]
      rw [if_neg (by norm_num)]
      norm_num [min_def, max_def]
    have hcand0 : snapCandidates ((0.2:ℝ), 0.05) [[(0, 0), (10, 0), (0, 10)]] [] =
        [(0, 0), (10, 0), (0, 10),
          closestPointOnSegment ((0.2:ℝ), 0.05) (0, 0) (10, 0),
          closestPointOnSegment ((0.2:ℝ), 0.05) (10, 0) (0, 10),
          closestPointOnSegment ((0.2:ℝ), 0.05) (0, 10) (0, 0)] := rfl
    have hcand : snapCandidates ((0.2:ℝ), 0.05) [[(0, 0), (10, 0), (0, 10)]] [] =
        [(0, 0), (10, 0), (0, 10), (0.2, 0), (5.075, 4.925), (0, 0.05)] := by
      rw [hcand0, hcps0, hcps1, hcps2]
    have h1 : considerStep (0.25:ℝ) ((0.2:ℝ), 0.05) none (0, 0) =
        some (dist ((0:ℝ), (0:ℝ)) ((0.2:ℝ), 0.05), (0, 0)) := by
      simp only [considerStep]
      rw [if_pos ((dist_le_iff_sq _ _ (by norm_num)).mpr (by norm_num))]
    have h2 : considerStep (0.25:ℝ) ((0.2:ℝ), 0.05)
        (some (dist ((0:ℝ), (0:ℝ)) ((0.2:ℝ), 0.05), (0, 0))) (10, 0) =
        some (dist ((0:ℝ), (0:ℝ)) ((0.2:ℝ), 0.05), (0, 0)) := by
      simp only [considerStep]
      rw [if_neg (fun hc =>
        absurd ((dist_le_iff_sq _ _ (by norm_num)).mp hc.1) (by norm_num))]
    have h3 : considerStep (0.25:ℝ) ((0.2:ℝ), 0.05)
        (some (dist ((0:ℝ), (0:ℝ)) ((0.2:ℝ), 0.05), (0, 0))) (0, 10) =
        some (dist ((0:ℝ), (0:ℝ)) ((0.2:ℝ), 0.05), (0, 0)) := by
      simp only [considerStep]
      rw [if_neg (fun hc =>
        absurd ((dist_le_iff_sq _ _ (by norm_num)).mp hc.1) (by norm_num))]
    have h4 : considerStep (0.25:ℝ) ((0.2:ℝ), 0.05)
        (some (dist ((0:ℝ), (0:ℝ)) ((0.2:ℝ), 0.05), (0, 0))) (0.2, 0) =
        some (dist ((0.2:ℝ), (0:ℝ)) ((0.2:ℝ), 0.05), (0.2, 0)) := by
      simp only [considerStep]
      rw [if_pos ⟨(dist_le_iff_sq _ _ (by norm_num)).mpr (by norm_num),
        (dist_lt_dist_iff_sq _ _ _ _).mpr (by norm_num)⟩]
    have h5 : considerStep (0.25:ℝ) ((0.2:ℝ), 0.05)
        (some (dist ((0.2:ℝ), (0:ℝ)) ((0.2:ℝ), 0.05), (0.2, 0))) (5.075, 4.925) =
        some (dist ((0.2:ℝ), (0:ℝ)) ((0.2:ℝ), 0.05), (0.2, 0)) := by
      simp only [considerStep]
      rw [if_neg (fun hc =>
        absurd ((dist_le_iff_sq _ _ (by norm_num)).mp hc.1) (by norm_num))]
    have h6 : considerStep (0.25:ℝ) ((0.2:ℝ), 0.05)
        (some (dist ((0.2:ℝ), (0:ℝ)) ((0.2:ℝ), 0.05), (0.2, 0))) (0, 0.05) =
        some (dist ((0.2:ℝ), (0:ℝ)) ((0.2:ℝ), 0.05), (0.2, 0)) := by
      simp only [considerStep]
      rw [if_neg (fun hc =>
        absurd ((dist_lt_dist_iff_sq _ _ _ _).mp hc.2) (by norm_num))]
    have hfold : ([((0:ℝ), (0:ℝ)), (10, 0), (0, 10), (0.2, 0), (5.075, 4.925),
        (0, 0.05)]).foldl (considerStep (0.25:ℝ) ((0.2:ℝ), 0.05)) none =
        some (dist ((0.2:ℝ), (0:ℝ)) ((0.2:ℝ), 0.05), (0.2, 0)) := by
      simp only [List.foldl_cons, List.foldl_nil]
      rw [h1, h2, h3, h4, h5, h6]
    simp only [snap, Bool.not_true, Bool.false_eq_true, if_false, htol, hcand, hfold]
  · intro w hw
    simp only [List.mem_cons, List.not_mem_nil, or_false] at hw
    rcases hw with rfl | rfl | rfl <;>
      (intro hcon; have h1 := (Prod.ext_iff.mp hcon).1; norm_num at h1)

theorem c7_snap_resolver_witness :
    (∃ q ∈ snapCandidates ((0.1:ℝ), 0) [[(0, 0), (4, 0), (0, 3)]] [],
      snap true 0.1 [[(0, 0), (4, 0), (0, 3)]] [] ((0.1:ℝ), 0) = q ∧
        dist q ((0.1:ℝ), 0) ≤ dist ((0:ℝ), (0:ℝ)) ((0.1:ℝ), 0)) ∧
    snap true 0.1 [] [] ((0.12:ℝ), 0.3) =
      ((round ((0.12:ℝ) / max (0.001:ℝ) 0.1) : ℤ) * max (0.001:ℝ) 0.1,
        (round ((0.3:ℝ) / max (0.001:ℝ) 0.1) : ℤ) * max (0.001:ℝ) 0.1) := by
  constructor
  · refine (c7_snap_resolver 0.1 [[(0, 0), (4, 0), (0, 3)]] [] ((0.1:ℝ), 0)
      (0, 0)).1 ⟨[(0, 0), (4, 0), (0, 3)], by simp, by simp⟩ ?_
    rw [dist_le_iff_sq _ _ (by norm_num [max_def] : (0:ℝ) ≤ max (max 0.001 0.1 * 2) 0.25)]
    norm_num [max_def]
  · refine (c7_snap_resolver 0.1 [] [] ((0.12:ℝ), 0.3) (0, 0)).2.2 ?_
    intro q hq
    simp [snapCandidates] at hq

/-- **C1.** For every polygon (list of at least 3 points), `area` returns half
the absolute value of the shoelace sum of cross terms over consecutive vertex
pairs, and is therefore always nonnegative; in particular, for the rectangle
(0,0)-(4,0)-(4,3)-(0,3) it returns 12. -/
theorem c1_area_shoelace_nonneg (points : List (ℚ × ℚ)) :
    (3 ≤ points.length → polygonArea points = |shoelaceSum points| / 2) ∧
    0 ≤ polygonArea points ∧
    polygonArea [(0, 0), (4, 0), (4, 3), (0, 3)] = 12 := by
  refine ⟨fun h3 => ?_, polygonArea_nonneg points, ?_⟩
  · rw [polygonArea_shoelace, if_neg (not_lt.mpr h3)]
  · rw [polygonArea]
    norm_num [pt, Finset.sum_range_succ]

theorem c1_area_shoelace_nonneg_witness :
    polygonArea [(0, 0), (4, 0), (4, 3), (0, 3)] =
      |shoelaceSum [(0, 0), (4, 0), (4, 3), (0, 3)]| / 2 ∧
    (0 : ℚ) ≤ polygonArea [(0, 0), (4, 0), (4, 3), (0, 3)] ∧
    polygonArea [(0, 0), (4, 0), (4, 3), (0, 3)] = 12 :=
  ⟨(c1_area_shoelace_nonneg [(0, 0), (4, 0), (4, 3), (0, 3)]).1 (by simp),
    (c1_area_shoelace_nonneg [(0, 0), (4, 0), (4, 3), (0, 3)]).2.1,
    (c1_area_shoelace_nonneg [(0, 0), (4, 0), (4, 3), (0, 3)]).2.2⟩

/-- **C2.** For every polygon point list, the value of `area` is unchanged
when the point list is reversed, and unchanged when the point list is
cyclically rotated by any amount. -/
theorem c2_area_reverse_rotate_invariant (points : List (ℚ × ℚ)) (k : ℕ) :
    polygonArea points.reverse = polygonArea points ∧
    polygonArea (points.rotate k) = polygonArea points := by
  constructor
  · rw [polygonArea_shoelace, polygonArea_shoelace, List.length_reverse]
    rcases lt_or_ge points.length 3 with h | h
    · rw [if_pos h, if_pos h]
    · rw [if_neg (not_lt.mpr h), if_neg (not_lt.mpr h)]
      have hrev : shoelaceSum points.reverse = -shoelaceSum points := by
        rw [shoelaceSum, cyclicPairSum_reverse]
        have hf : (fun p q : ℚ × ℚ => q.1 * p.2 - p.1 * q.2) =
            fun p q : ℚ × ℚ => -(p.1 * q.2 - q.1 * p.2) := by
          funext p q; ring
        rw [hf, cyclicPairSum_neg]
        rfl
      rw [hrev, abs_neg]
  · rw [polygonArea_shoelace, polygonArea_shoelace, List.length_rotate]
    rcases lt_or_ge points.length 3 with h | h
    · rw [if_pos h, if_pos h]
    · rw [if_neg (not_lt.mpr h), if_neg (not_lt.mpr h)]
      rw [shoelaceSum, cyclicPairSum_rotate]
      rfl

/-- **C3 (counterexample).** The claim "for every polygon whose area is
below 1e-6, centroid returns none" fails: this triangle has area
5e-8 < 1e-6, yet `polygonCentroid` returns a value, because the code's
degeneracy test is `|area2| < 1e-12` (on twice the signed area), not a
1e-6 test on the area. -/
theorem c3_centroid_degenerate_counterexample :
    polygonArea [(0, 0), (1, 0), (0, 1e-7)] < 1e-6 ∧
    3 ≤ ([(0, 0), (1, 0), (0, 1e-7)] : List (ℚ × ℚ)).length ∧
    polygonCentroid [(0, 0), (1, 0), (0, 1e-7)] ≠ none := by
  refine ⟨?_, by simp, ?_⟩
  · rw [polygonArea]
    norm_num [pt, Finset.sum_range_succ]
    rw [div_lt_iff₀ (by norm_num : (0:ℚ) < 2), abs_lt]
    constructor <;> norm_num
  · simp only [polygonCentroid]
    norm_num [pt, Finset.sum_range_succ]
    exact ⟨le_abs.mpr (Or.inl (by norm_num)), by simp⟩

/-- **C3 (amended).** `polygonCentroid` returns none exactly when the polygon
has fewer than 3 points or twice its signed area is below 1e-12 in magnitude
(the code's degeneracy test), not when the area is below 1e-6; otherwise it
returns the standard area-weighted centroid, e.g. (2, 1.5) for the rectangle
(0,0)-(4,0)-(4,3)-(0,3). -/
theorem c3_centroid_degenerate_amended (points : List (ℚ × ℚ)) :
    (polygonCentroid points = none ↔
      points.length < 3 ∨ |shoelaceSum points| < 1e-12) ∧
    (3 ≤ points.length → ¬|shoelaceSum points| < 1e-12 →
      polygonCentroid points = some (centroidSpec points)) ∧
    polygonCentroid [(0, 0), (4, 0), (4, 3), (0, 3)] = some (2, 3/2) := by
  have hS : ∑ i ∈ Finset.range points.length,
      ((pt points i).1 * (pt points (i + 1)).2 -
        (pt points (i + 1)).1 * (pt points i).2) = shoelaceSum points :=
    (cyclicPairSum_eq_range (fun p q => p.1 * q.2 - q.1 * p.2) points).symm
  refine ⟨?_, ?_, ?_⟩
  · rcases lt_or_ge points.length 3 with h | h
    · simp only [polygonCentroid, if_pos h]
      simp [h]
    · simp only [polygonCentroid, if_neg (not_lt.mpr h), hS]
      by_cases hd : |shoelaceSum points| < 1e-12
      · rw [if_pos hd]
        simp [hd]
      · rw [if_neg hd]
        simp only [hd, or_false]
        constructor
        · intro hcon; exact absurd hcon (by simp)
        · intro hcon; omega
  · intro h3 hnd
    simp only [polygonCentroid, if_neg (not_lt.mpr h3), hS, if_neg hnd]
    have hcx : ∑ i ∈ Finset.range points.length,
        (((pt points i).1 + (pt points (i + 1)).1) *
          ((pt points i).1 * (pt points (i + 1)).2 -
            (pt points (i + 1)).1 * (pt points i).2)) =
        cyclicPairSum (fun p q => (p.1 + q.1) * (p.1 * q.2 - q.1 * p.2)) points :=
      (cyclicPairSum_eq_range (fun p q => (p.1 + q.1) * (p.1 * q.2 - q.1 * p.2))
        points).symm
    have hcy : ∑ i ∈ Finset.range points.length,
        (((pt points i).2 + (pt points (i + 1)).2) *
          ((pt points i).1 * (pt points (i + 1)).2 -
            (pt points (i + 1)).1 * (pt points i).2)) =
        cyclicPairSum (fun p q => (p.2 + q.2) * (p.1 * q.2 - q.1 * p.2)) points :=
      (cyclicPairSum_eq_range (fun p q => (p.2 + q.2) * (p.1 * q.2 - q.1 * p.2))
        points).symm
    rw [hcx, hcy, centroidSpec]
    have h6 : (6 : ℚ) * (shoelaceSum points / 2) = 3 * shoelaceSum points := by ring
    simp only [h6]
    rw [mul_one_div, mul_one_div]
  · simp only [polygonCentroid]
    norm_num [pt, Finset.sum_range_succ, abs_lt]

theorem c3_centroid_degenerate_witness :
    polygonCentroid [(0, 0), (4, 0), (4, 3), (0, 3)] =
      some (centroidSpec [(0, 0), (4, 0), (4, 3), (0, 3)]) ∧
    polygonCentroid [(0, 0), (4, 0), (4, 3), (0, 3)] = some (2, 3/2) :=
  ⟨(c3_centroid_degenerate_amended [(0, 0), (4, 0), (4, 3), (0, 3)]).2.1 (by simp)
      (by
        rw [shoelaceSum, cyclicPairSum_eq_range]
        norm_num [pt, Finset.sum_range_succ, abs_lt]),
    (c3_centroid_degenerate_amended [(0, 0), (4, 0), (4, 3), (0, 3)]).2.2⟩

/-- **C8.** For a zone in auto capacity mode, the computed capacity equals
`round(area_m2 · density_per_m2)` of the zone polygon (for a nonnegative
density, the code's additional clamp at 0 is the identity); in particular, a
50 m² zone at density 2 per m² yields capacity 100. -/
theorem c8_zone_auto_capacity (points : List (ℚ × ℚ)) (density : ℚ)
    (hd : 0 ≤ density) :
    (zoneAutoPreview points density).2 = jsround (polygonArea points * density) ∧
    zoneAutoPreview [(0, 0), (10, 0), (10, 5), (0, 5)] 2 = (50, 100) := by
  constructor
  · rw [zoneAutoPreview]
    refine max_eq_right ?_
    rw [jsround]
    refine Int.le_floor.mpr ?_
    push_cast
    have := mul_nonneg (polygonArea_nonneg points) hd
    linarith
  · have harea : polygonArea [(0, 0), (10, 0), (10, 5), (0, 5)] = 50 := by
      rw [polygonArea]; norm_num [pt, Finset.sum_range_succ]
    have hr : jsround ((50 : ℚ) * 2) = 100 := by
      rw [show ((50 : ℚ) * 2) = 100 by norm_num]
      exact jsround_eq (by norm_num) (by norm_num)
    rw [zoneAutoPreview, harea, hr]
    norm_num

theorem c8_zone_auto_capacity_witness :
    (zoneAutoPreview [(0, 0), (10, 0), (10, 5), (0, 5)] 2).2 =
      jsround (polygonArea [(0, 0), (10, 0), (10, 5), (0, 5)] * 2) ∧
    zoneAutoPreview [(0, 0), (10, 0), (10, 5), (0, 5)] 2 = (50, 100) :=
  c8_zone_auto_capacity [(0, 0), (10, 0), (10, 5), (0, 5)] 2 (by norm_num)

/-- **C9.** Grid-mode seat generation estimates the projected seat count as
polygon area divided by `seat_pitch_m · row_pitch_m` before committing any
seat (the in-repository UI estimate `sectionGridEstimate` computes the same
number whenever `seat_pitch · row_pitch ≥ 1e-9`, its division guard), and
when that estimate exceeds `max_seats` the operation fails with an error and
creates no seats at all. -/
theorem c9_grid_estimate_cap (inside : ℚ × ℚ → Bool) (points : List (ℚ × ℚ))
    (sp rp marginM : ℚ) (maxSeats : ℤ)
    (hp : 1e-9 ≤ sp * rp)
    (hover : maxSeats < jsround (polygonArea points / (sp * rp))) :
    sectionGridEstimate points sp rp = jsround (polygonArea points / (sp * rp)) ∧
    generateSeatsInSection inside points sp rp marginM maxSeats =
      Except.error "projected seat count exceeds max_seats" ∧
    ∀ seats, generateSeatsInSection inside points sp rp marginM maxSeats ≠
      Except.ok seats := by
  have h2 : generateSeatsInSection inside points sp rp marginM maxSeats =
      Except.error "projected seat count exceeds max_seats" := by
    simp only [generateSeatsInSection]
    rw [if_pos hover]
  refine ⟨?_, h2, fun seats hcon => ?_⟩
  · rw [sectionGridEstimate, max_eq_right hp]
  · rw [h2] at hcon
    exact Except.noConfusion hcon

/-- An edge pair whose four orientation values all clear the `1e-9` epsilon
with a common sign (both segment endpoints strictly on the same side of the
other segment's line) is reported as non-intersecting. -/
theorem edgeCheck_none_of_margin (a b c d : ℚ × ℚ)
    (h : (1e-9 < orient a.1 a.2 b.1 b.2 c.1 c.2 ∧
          1e-9 < orient a.1 a.2 b.1 b.2 d.1 d.2 ∧
          1e-9 < orient c.1 c.2 d.1 d.2 a.1 a.2 ∧
          1e-9 < orient c.1 c.2 d.1 d.2 b.1 b.2) ∨
         (orient a.1 a.2 b.1 b.2 c.1 c.2 < -1e-9 ∧
          orient a.1 a.2 b.1 b.2 d.1 d.2 < -1e-9 ∧
          orient c.1 c.2 d.1 d.2 a.1 a.2 < -1e-9 ∧
          orient c.1 c.2 d.1 d.2 b.1 b.2 < -1e-9)) :
    edgeCheck a b c d = none := by
  simp only [edgeCheck]
  apply if_neg
  intro hcon
  rcases h with ⟨h1, h2, h3, h4⟩ | ⟨h1, h2, h3, h4⟩ <;>
    rcases hcon with ⟨⟨hg1, hg2⟩ | ⟨hg1, hg2⟩, -⟩ | ⟨ha, -⟩ | ⟨ha, -⟩ | ⟨ha, -⟩ | ⟨ha, -⟩ <;>
    first
      | linarith
      | (have hx := abs_le.mp ha; linarith [hx.1, hx.2])

/-- **C6 (counterexample).** The claim "self_intersection returns none for
every convex quadrilateral" fails: this strictly convex quadrilateral (all
four vertex-triple orientations strictly negative, i.e. clockwise convex) is
epsilon-thin, so the `|orient| ≤ 1e-9` touching branch fires and a point is
reported. -/
theorem c6_self_intersection_counterexample :
    (orient 0 0 1 1e-10 2 0 < 0 ∧
     orient 1 1e-10 2 0 1 (-1e-10) < 0 ∧
     orient 2 0 1 (-1e-10) 0 0 < 0 ∧
     orient 1 (-1e-10) 0 0 1 1e-10 < 0) ∧
    polygonSelfIntersection [(0, 0), (1, 1e-10), (2, 0), (1, -1e-10)] =
      some (2, 0) := by
  constructor
  · refine ⟨?_, ?_, ?_, ?_⟩ <;> (rw [orient]; norm_num)
  · rw [polygonSelfIntersection, if_neg (by simp)]
    rw [show nonAdjPairs
        ([((0:ℚ), (0:ℚ)), (1, 1e-10), (2, 0), (1, -1e-10)] : List (ℚ × ℚ)).length =
        [(0, 2), (1, 3)] from rfl]
    norm_num [List.findSome?_cons, pt, edgeCheck, orient, onSegment,
      segmentIntersectionPoint, abs_le, abs_lt, min_def, max_def]

/-- **C6 (amended).** `polygonSelfIntersection` tests only non-adjacent edge
pairs (the visited index pairs satisfy `j ≥ i + 2` and are not the
wrap-around pair, so shared endpoints of adjacent edges never count); it
returns none for every convex quadrilateral all four of whose vertex-triple
orientations clear the epsilon `1e-9` with a common sign (an epsilon-thin
convex quadrilateral may instead be reported as touching, see the
counterexample); and for the bowtie (self-crossing) quadrilateral
(0,0),(2,2),(2,0),(0,2) it returns the exact crossing point (1,1) of its
crossing edges. -/
theorem c6_self_intersection_amended (p0 p1 p2 p3 : ℚ × ℚ) :
    (∀ n i j, (i, j) ∈ nonAdjPairs n → i + 2 ≤ j ∧ ¬(i = 0 ∧ j = n - 1)) ∧
    ((1e-9 < orient p0.1 p0.2 p1.1 p1.2 p2.1 p2.2 ∧
      1e-9 < orient p1.1 p1.2 p2.1 p2.2 p3.1 p3.2 ∧
      1e-9 < orient p2.1 p2.2 p3.1 p3.2 p0.1 p0.2 ∧
      1e-9 < orient p3.1 p3.2 p0.1 p0.2 p1.1 p1.2) ∨
     (orient p0.1 p0.2 p1.1 p1.2 p2.1 p2.2 < -1e-9 ∧
      orient p1.1 p1.2 p2.1 p2.2 p3.1 p3.2 < -1e-9 ∧
      orient p2.1 p2.2 p3.1 p3.2 p0.1 p0.2 < -1e-9 ∧
      orient p3.1 p3.2 p0.1 p0.2 p1.1 p1.2 < -1e-9) →
      polygonSelfIntersection [p0, p1, p2, p3] = none) ∧
    polygonSelfIntersection [(0, 0), (2, 2), (2, 0), (0, 2)] = some (1, 1) := by
  refine ⟨?_, ?_, ?_⟩
  · intro n i j hmem
    simp only [nonAdjPairs, List.mem_flatMap, List.mem_map, List.mem_filter,
      List.mem_range, Bool.and_eq_true, Bool.not_eq_true', Bool.and_eq_false_iff,
      decide_eq_true_eq, decide_eq_false_iff_not, Prod.mk.injEq] at hmem
    obtain ⟨i', -, j', ⟨-, hcond⟩, hi, hj⟩ := hmem
    subst hi; subst hj
    rcases hcond with ⟨hle, hnot⟩
    exact ⟨hle, by tauto⟩
  · intro h
    have e24 : orient p0.1 p0.2 p1.1 p1.2 p3.1 p3.2 =
        orient p3.1 p3.2 p0.1 p0.2 p1.1 p1.2 := by rw [orient, orient]; ring
    have e23 : orient p2.1 p2.2 p3.1 p3.2 p1.1 p1.2 =
        orient p1.1 p1.2 p2.1 p2.2 p3.1 p3.2 := by rw [orient, orient]; ring
    have e32 : orient p1.1 p1.2 p2.1 p2.2 p0.1 p0.2 =
        orient p0.1 p0.2 p1.1 p1.2 p2.1 p2.2 := by rw [orient, orient]; ring
    have e34 : orient p3.1 p3.2 p0.1 p0.2 p2.1 p2.2 =
        orient p2.1 p2.2 p3.1 p3.2 p0.1 p0.2 := by rw [orient, orient]; ring
    have h1 : edgeCheck p0 p1 p2 p3 = none := by
      apply edgeCheck_none_of_margin
      rcases h with ⟨ha, hb, hc, hd⟩ | ⟨ha, hb, hc, hd⟩
      · exact Or.inl ⟨ha, by rw [e24]; exact hd, hc, by rw [e23]; exact hb⟩
      · exact Or.inr ⟨ha, by rw [e24]; exact hd, hc, by rw [e23]; exact hb⟩
    have h2 : edgeCheck p1 p2 p3 p0 = none := by
      apply edgeCheck_none_of_margin
      rcases h with ⟨ha, hb, hc, hd⟩ | ⟨ha, hb, hc, hd⟩
      · exact Or.inl ⟨hb, by rw [e32]; exact ha, hd, by rw [e34]; exact hc⟩
      · exact Or.inr ⟨hb, by rw [e32]; exact ha, hd, by rw [e34]; exact hc⟩
    rw [polygonSelfIntersection, if_neg (by simp)]
    rw [show nonAdjPairs ([p0, p1, p2, p3] : List (ℚ × ℚ)).length =
        [(0, 2), (1, 3)] from rfl]
    simp only [List.findSome?_cons, List.findSome?_nil]
    have hpt0 : pt [p0, p1, p2, p3] 0 = p0 := rfl
    have hpt1 : pt [p0, p1, p2, p3] 1 = p1 := rfl
    have hpt2 : pt [p0, p1, p2, p3] 2 = p2 := rfl
    have hpt3 : pt [p0, p1, p2, p3] 3 = p3 := rfl
    have hpt4 : pt [p0, p1, p2, p3] 4 = p0 := by norm_num [pt]
    simp only [hpt0, hpt1, hpt2, hpt3, hpt4, h1, h2]
  · rw [polygonSelfIntersection, if_neg (by simp)]
    rw [show nonAdjPairs
        ([((0:ℚ), (0:ℚ)), (2, 2), (2, 0), (0, 2)] : List (ℚ × ℚ)).length =
        [(0, 2), (1, 3)] from rfl]
    norm_num [List.findSome?_cons, pt, edgeCheck, orient, onSegment,
      segmentIntersectionPoint, abs_le, abs_lt, min_def, max_def]

theorem c6_self_intersection_amended_witness :
    polygonSelfIntersection
      [((0:ℚ), (0:ℚ)), (1, 0), (1, 1), (0, 1)] = none ∧
    polygonSelfIntersection [(0, 0), (2, 2), (2, 0), (0, 2)] = some (1, 1) :=
  ⟨(c6_self_intersection_amended (0, 0) (1, 0) (1, 1) (0, 1)).2.1
      (Or.inl (by refine ⟨?_, ?_, ?_, ?_⟩ <;> (rw [orient]; norm_num))),
    (c6_self_intersection_amended 0 0 0 0).2.2⟩

theorem c9_grid_estimate_cap_witness :
    sectionGridEstimate [(0, 0), (10, 0), (10, 10), (0, 10)] 1 1 =
      jsround (polygonArea [(0, 0), (10, 0), (10, 10), (0, 10)] / (1 * 1)) ∧
    generateSeatsInSection (fun _ => true) [(0, 0), (10, 0), (10, 10), (0, 10)]
        1 1 0 50 = Except.error "projected seat count exceeds max_seats" ∧
    ∀ seats, generateSeatsInSection (fun _ => true)
      [(0, 0), (10, 0), (10, 10), (0, 10)] 1 1 0 50 ≠ Except.ok seats := by
  have harea : polygonArea [(0, 0), (10, 0), (10, 10), (0, 10)] = 100 := by
    rw [polygonArea]; norm_num [pt, Finset.sum_range_succ]
  have hjr : jsround (100 : ℚ) = 100 := jsround_eq (by norm_num) (by norm_num)
  refine c9_grid_estimate_cap (fun _ => true) _ 1 1 0 50 (by norm_num) ?_
  rw [harea, show ((100 : ℚ) / (1 * 1)) = 100 by norm_num, hjr]
  norm_num

end Bazachat
